import Mathlib

/-!
# Verification of the request-logging subsystem (sqlite repository + API projection)

Shallow embedding of `src/pkg/db/sqlite/sqlite.go` and of the API-layer code
(`parseRequestLog` and friends) shipped alongside
`src/admin/src/components/reqlog/LogsOverview.tsx`.

Modelling choices (documented once, used throughout):

* SQLite tables are Lean lists of row structures, in insertion (rowid) order.
  A query without `ORDER BY` returns rows in table order, which is what SQLite
  does for a plain scan of these tables.  `INTEGER PRIMARY KEY` rowids are
  modelled by explicit monotone counters (`nextReqId`, ...), starting at 1.
* Go byte slices (`[]byte` bodies) are `List Nat`; `time.Time` values are an
  opaque `Nat` (the store round-trips them unchanged, which is the level of
  detail the claims need).
* A Go `http.Header` (`map[string][]string`) is an association list
  `List (String × List String)`.  Go map iteration order is unspecified, so
  every theorem about header insertion quantifies over the association list:
  it therefore holds for every iteration order the Go runtime may pick.
* Fallible Go code returns `Except`.  Each failure-prone step of a write
  transaction is numbered in program order and an optional `failAt` step index
  injects a failure there, mirroring "any step fails" in the spec.
* `database/sql` + mattn/go-sqlite3 semantics that the code relies on are part
  of the embedding: a statement errors when fewer args than placeholders are
  supplied (extra trailing args are silently dropped by the driver's
  `query` loop), `SELECT` columns naming the alias `res` without the
  `LEFT JOIN http_responses res` are rejected at prepare time
  (`no such column`), and `Rows.Scan` into two destinations fails unless the
  row has exactly two columns.
* `http.Header.Add` (used by `findHeaders`) canonicalizes its key via
  `textproto.CanonicalMIMEHeaderKey`; that stdlib function is embedded
  faithfully below.
-/

/-- A Go `http.Header`: association list from key to the ordered list of
values.  Models `map[string][]string`; theorems quantify over the entry order
to cover Go's unspecified map iteration order. -/
abbrev Headers := List (String × List String)

/-- Lookup in a header multi-map: concatenated values of all entries whose key
is exactly `k` (for a well-formed map there is at most one such entry).
`[]` both for a missing key and for a key mapped to no values, which matches
multi-map equality: a key with an empty value list inserts no header rows. -/
def hLookup (h : Headers) (k : String) : List String :=
  (h.filter (fun e => decide (e.1 = k))).flatMap (fun e => e.2)

/-- Flatten a header map into `(key, value)` pairs in entry order, values of
one key kept contiguous and in order — exactly the rows `insertHeaders`
produces while ranging over the map. -/
def flattenHeaders (h : Headers) : List (String × String) :=
  h.flatMap (fun e => e.2.map (fun v => (e.1, v)))

/-- Byte-level token test of Go's `textproto` `validHeaderFieldByte`:
digits, letters and `!#$%&'*+-.^_` (backquote) `|~`. -/
def isTokenChar (n : Nat) : Bool :=
  (48 ≤ n && n ≤ 57) || (65 ≤ n && n ≤ 90) || (97 ≤ n && n ≤ 122) ||
  n == 33 || (35 ≤ n && n ≤ 39) || n == 42 || n == 43 || n == 45 ||
  n == 46 || n == 94 || n == 95 || n == 96 || n == 124 || n == 126

/-- One pass of Go's `canonicalMIMEHeaderKey` over the characters: uppercase a
letter at the start or after a `-`, lowercase it elsewhere. -/
def canonChars : Bool → List Char → List Char
  | _, [] => []
  | upper, c :: rest =>
    let c2 : Char :=
      if upper && (97 ≤ c.toNat && c.toNat ≤ 122) then Char.ofNat (c.toNat - 32)
      else if !upper && (65 ≤ c.toNat && c.toNat ≤ 90) then Char.ofNat (c.toNat + 32)
      else c
    c2 :: canonChars (c2 == '-') rest

/-- Go `textproto.CanonicalMIMEHeaderKey`: if every byte is a valid token
byte, canonicalize the casing; otherwise return the key unchanged.
(`http.Header.Add` applies this to the key.) -/
def canonicalMIMEHeaderKey (s : String) : String :=
  if s.data.all (fun c => isTokenChar c.toNat) then ⟨canonChars true s.data⟩ else s

/-- Go `http.Header.Add h k v`: append `v` to the values of the canonicalized
key, creating the entry (at the end, modelling map insertion) if absent. -/
def headerAdd (h : Headers) (k v : String) : Headers :=
  let ck := canonicalMIMEHeaderKey k
  if h.any (fun e => decide (e.1 = ck)) then
    h.map (fun e => if e.1 = ck then (e.1, e.2 ++ [v]) else e)
  else
    h ++ [(ck, [v])]

/-! ## Store: the three sqlite relations -/

/-- A row of `http_requests`. -/
structure HttpRequestRow where
  id : Int
  proto : String
  url : String
  method : String
  body : List Nat
  timestamp : Nat
  deriving Repr, DecidableEq

/-- A row of `http_responses`. -/
structure HttpResponseRow where
  id : Int
  reqId : Int
  proto : String
  statusCode : Int
  statusReason : String
  body : List Nat
  timestamp : Nat
  deriving Repr, DecidableEq

/-- A row of `http_headers`; exactly one of `reqId`/`resId` is set by the
write paths. -/
structure HttpHeaderRow where
  id : Int
  reqId : Option Int
  resId : Option Int
  key : String
  value : String
  deriving Repr, DecidableEq

/-- The sqlite database: three tables in rowid order plus the next rowid for
each table (`INTEGER PRIMARY KEY` assignment; sqlite rowids start at 1 and the
logger never deletes, so the next rowid is one past the largest). -/
structure Store where
  requests : List HttpRequestRow
  responses : List HttpResponseRow
  headers : List HttpHeaderRow
  nextReqId : Int
  nextResId : Int
  nextHeaderId : Int
  deriving Repr, DecidableEq

def emptyStore : Store := ⟨[], [], [], 1, 1, 1⟩

/-- The parts of a Go `http.Request` that `AddRequestLog` reads:
`Proto`, `URL.String()`, `Method`, `Header`. -/
structure HttpRequestIn where
  method : String
  urlStr : String
  proto : String
  header : Headers
  deriving Repr, DecidableEq

/-- The parts of a Go `http.Response` that `AddResponseLog` reads:
`Proto`, `Status` (the status line, e.g. `"200 OK"`), `StatusCode`, `Header`. -/
structure HttpResponseIn where
  proto : String
  status : String
  statusCode : Int
  header : Headers
  deriving Repr, DecidableEq

/-- `reqlog.Response` as surfaced by the read path: one response row with the
selected columns populated, plus the headers fetched on demand
(`none` models a nil Go map, i.e. headers never fetched). -/
structure ResponseLog where
  id : Int
  requestId : Int
  proto : String
  statusCode : Int
  statusReason : String
  body : List Nat
  timestamp : Nat
  header : Option Headers
  deriving Repr, DecidableEq

/-- `reqlog.Request`: the record the repository returns.  On the read path a
field is zero-valued unless its column was selected; `header = none` models a
nil Go header map. -/
structure RequestLog where
  id : Int
  proto : String
  url : String
  method : String
  body : List Nat
  timestamp : Nat
  header : Option Headers
  response : Option ResponseLog
  deriving Repr, DecidableEq

/-! ## Write path: `AddRequestLog`, `AddResponseLog`, `insertHeaders`

Each failure-prone step is numbered in program order; `failAt = some i` makes
step `i` fail (modelling an I/O or constraint failure there), `none` lets
every step succeed.  The transaction is a pending copy of the store: an error
on any step returns the original store (`defer tx.Rollback()`), `Commit`
publishes the pending copy. -/

/-- `insertHeaders` (sqlite.go): execute the prepared single-row INSERT once
per `(key, value)` pair of the flattened header map, threading the failure
step counter.  Returns the transaction store after all inserts. -/
def insertHeaders (pairs : List (String × String)) (setRef : Int → HttpHeaderRow)
    (step : Nat) (failAt : Option Nat) (tx : Store) : Except String Store :=
  match pairs with
  | [] => .ok tx
  | (k, v) :: rest =>
    if failAt = some step then
      .error "could not execute statement"
    else
      let row := { setRef tx.nextHeaderId with key := k, value := v }
      insertHeaders rest setRef (step + 1) failAt
        { tx with headers := tx.headers ++ [row], nextHeaderId := tx.nextHeaderId + 1 }

/-- Header row template for a request-owned header. -/
def reqHeaderRow (reqId : Int) (rowId : Int) : HttpHeaderRow :=
  ⟨rowId, some reqId, none, "", ""⟩

/-- Header row template for a response-owned header. -/
def resHeaderRow (resId : Int) (rowId : Int) : HttpHeaderRow :=
  ⟨rowId, none, some resId, "", ""⟩

/-- `AddRequestLog` (sqlite.go): begin a transaction (step 0), prepare
(step 1) and execute (step 2) the `http_requests` INSERT, read the assigned
rowid (step 3), prepare the header INSERT (step 4), run it once per header
pair (steps 5, 6, ...), then commit (last step).  Any failure rolls the
transaction back and returns the error with the store unchanged. -/
def AddRequestLog (st : Store) (req : HttpRequestIn) (body : List Nat)
    (timestamp : Nat) (failAt : Option Nat) : Except String RequestLog × Store :=
  if failAt = some 0 then (.error "sqlite: could not start transaction", st)
  else if failAt = some 1 then (.error "sqlite: could not prepare statement", st)
  else if failAt = some 2 then (.error "sqlite: could not execute statement", st)
  else if failAt = some 3 then (.error "sqlite: could not get last insert ID", st)
  else if failAt = some 4 then (.error "sqlite: could not prepare statement", st)
  else
    match insertHeaders (flattenHeaders req.header) (reqHeaderRow st.nextReqId) 5 failAt
        { st with
            requests := st.requests ++
              [⟨st.nextReqId, req.proto, req.urlStr, req.method, body, timestamp⟩],
            nextReqId := st.nextReqId + 1 } with
    | .error e => (.error ("sqlite: could not insert http headers: " ++ e), st)
    | .ok tx2 =>
      if failAt = some (5 + (flattenHeaders req.header).length) then
        (.error "sqlite: could not commit transaction", st)
      else
        (.ok ⟨st.nextReqId, req.proto, req.urlStr, req.method, body, timestamp,
              some req.header, none⟩, tx2)

/-- The status-reason computation inside `AddResponseLog`: the status line
from (byte) index 4 on when longer than 4, empty otherwise.  (Status lines
here are ASCII, so char indexing coincides with Go's byte indexing.) -/
def statusReasonFromLine (s : String) : String :=
  if s.length > 4 then ⟨s.data.drop 4⟩ else ""

/-- `AddResponseLog` (sqlite.go): same transactional pattern as
`AddRequestLog` on `http_responses` + `http_headers`, deriving
`status_reason` from the status line. -/
def AddResponseLog (st : Store) (reqId : Int) (res : HttpResponseIn)
    (body : List Nat) (timestamp : Nat) (failAt : Option Nat) :
    Except String ResponseLog × Store :=
  if failAt = some 0 then (.error "sqlite: could not start transaction", st)
  else if failAt = some 1 then (.error "sqlite: could not prepare statement", st)
  else if failAt = some 2 then (.error "sqlite: could not execute statement", st)
  else if failAt = some 3 then (.error "sqlite: could not get last insert ID", st)
  else if failAt = some 4 then (.error "sqlite: could not prepare statement", st)
  else
    match insertHeaders (flattenHeaders res.header) (resHeaderRow st.nextResId) 5 failAt
        { st with
            responses := st.responses ++
              [⟨st.nextResId, reqId, res.proto, res.statusCode,
                statusReasonFromLine res.status, body, timestamp⟩],
            nextResId := st.nextResId + 1 } with
    | .error e => (.error ("sqlite: could not insert http headers: " ++ e), st)
    | .ok tx2 =>
      if failAt = some (5 + (flattenHeaders res.header).length) then
        (.error "sqlite: could not commit transaction", st)
      else
        (.ok ⟨st.nextResId, reqId, res.proto, res.statusCode,
              statusReasonFromLine res.status, body, timestamp,
              some res.header⟩, tx2)

/-! ## Projection planner: `parseHTTPRequestLogsQuery`

The planner walks the GraphQL field tree the API layer collected
(`graphql.CollectFieldsCtx` / `CollectFields`).  We model that tree directly:
a field has a name and a selection set, to the three levels the planner
inspects (request field → response field → header field). -/

/-- A leaf selection (a header field: `key` / `value`). -/
structure FieldL2 where
  name : String
  deriving Repr, DecidableEq

/-- A second-level selection (a response field, or a request-header field,
whose own selections are leaves). -/
structure FieldL1 where
  name : String
  selections : List FieldL2
  deriving Repr, DecidableEq

/-- A top-level request field with its selection set. -/
structure FieldL0 where
  name : String
  selections : List FieldL1
  deriving Repr, DecidableEq

/-- `reqFieldToColumnMap` (sqlite.go). -/
def reqFieldToColumnMap : String → Option String
  | "proto" => some "proto AS req_proto"
  | "url" => some "url"
  | "method" => some "method"
  | "body" => some "body AS req_body"
  | "timestamp" => some "timestamp AS req_timestamp"
  | _ => none

/-- `resFieldToColumnMap` (sqlite.go). -/
def resFieldToColumnMap : String → Option String
  | "requestId" => some "req_id AS res_req_id"
  | "proto" => some "proto AS res_proto"
  | "statusCode" => some "status_code"
  | "statusReason" => some "status_reason"
  | "body" => some "body AS res_body"
  | "timestamp" => some "timestamp AS res_timestamp"
  | _ => none

/-- `headerFieldToColumnMap` (sqlite.go). -/
def headerFieldToColumnMap : String → Option String
  | "key" => some "key"
  | "value" => some "value"
  | _ => none

/-- The planner's output (struct `httpRequestLogsQuery` in sqlite.go). -/
structure HttpRequestLogsQuery where
  requestCols : List String
  requestHeaderCols : List String
  responseHeaderCols : List String
  joinResponse : Bool
  deriving Repr, DecidableEq

/-- Body of the `reqField.Name == "response"` branch: for each nested response
field, the `headers` check runs first (re-adding `res.id AS res_id` and
collecting header columns), then the `resFieldToColumnMap` lookup
(`"headers"` is not in that map, so no column is added for it). -/
def processResField (acc : List String × List String) (rf : FieldL1) :
    List String × List String :=
  let acc :=
    if rf.name = "headers" then
      (acc.1 ++ ["res.id AS res_id"],
       acc.2 ++ rf.selections.filterMap (fun hf => headerFieldToColumnMap hf.name))
    else acc
  match resFieldToColumnMap rf.name with
  | some col => (acc.1 ++ ["res." ++ col], acc.2)
  | none => acc

/-- One iteration of the planner's loop over the collected request fields. -/
def processReqField (acc : HttpRequestLogsQuery) (f : FieldL0) :
    HttpRequestLogsQuery :=
  let acc :=
    match reqFieldToColumnMap f.name with
    | some col => { acc with requestCols := acc.requestCols ++ ["req." ++ col] }
    | none => acc
  let acc :=
    if f.name = "headers" then
      { acc with requestHeaderCols :=
          (acc.requestHeaderCols ++ f.selections.filterMap (fun hf => headerFieldToColumnMap hf.name)) }
    else acc
  if f.name = "response" then
    let (cols, resH) := f.selections.foldl processResField
      (acc.requestCols, acc.responseHeaderCols)
    { acc with requestCols := cols, responseHeaderCols := resH, joinResponse := true }
  else acc

/-- `parseHTTPRequestLogsQuery` (sqlite.go): starts from the column list
`["req.id AS req_id", "res.id AS res_id"]` and folds the collected request
fields in order. -/
def parseHTTPRequestLogsQuery (proj : List FieldL0) : HttpRequestLogsQuery :=
  proj.foldl processReqField ⟨["req.id AS req_id", "res.id AS res_id"], [], [], false⟩

/-! ## Read path -/

/-- The repository's error channel: `reqlog.ErrRequestNotFound` is a distinct
sentinel; every other failure is a wrapped message. -/
inductive DbError where
  | requestNotFound
  | other (msg : String)
  deriving Repr, DecidableEq

/-- Does a selected column reference the `res` table alias
(`"res.id AS res_id"`, `"res.proto AS res_proto"`, ...)? -/
def colRefersToRes (c : String) : Bool :=
  match c.data with
  | 'r' :: 'e' :: 's' :: '.' :: _ => true
  | _ => false

/-- SQLite name resolution for the base query: a column referencing alias
`res` while `http_responses res` is not joined makes the statement fail to
prepare (`no such column: res.id`). -/
def baseQueryValid (q : HttpRequestLogsQuery) : Bool :=
  q.joinResponse || !(q.requestCols.any colRefersToRes)

/-- `LEFT JOIN http_responses res ON req.id = res.req_id` for one request
row: the matching response rows, or a single all-NULL response if none. -/
def leftJoinResponses (responses : List HttpResponseRow) (r : HttpRequestRow) :
    List (HttpRequestRow × Option HttpResponseRow) :=
  match responses.filter (fun res => decide (res.reqId = r.id)) with
  | [] => [(r, none)]
  | l => l.map (fun res => (r, some res))

/-- Join each base row with responses when `joinResponse` is set; otherwise
the bare request rows. -/
def joinRows (q : HttpRequestLogsQuery) (responses : List HttpResponseRow)
    (base : List HttpRequestRow) : List (HttpRequestRow × Option HttpResponseRow) :=
  if q.joinResponse then base.flatMap (leftJoinResponses responses)
  else base.map (fun r => (r, none))

/-- Descending insertion by `id` (stable for equal ids). -/
def insertDesc (r : HttpRequestRow) : List HttpRequestRow → List HttpRequestRow
  | [] => [r]
  | x :: xs => if x.id ≤ r.id then r :: x :: xs else x :: insertDesc r xs

/-- `ORDER BY req.id DESC`. -/
def sortByIdDesc (l : List HttpRequestRow) : List HttpRequestRow :=
  l.foldr insertDesc []

/-- Modelled from the spec: the scan of one base-query row into the
`httpRequest` DTO and `toRequestLog` (both in this repository's sqlite package
but not under src/).  Per the spec, "`FindByID(R.id, P)` returns R with
exactly the fields P requested populated (other fields may be zero/absent);
`id` is always populated", and the record's `response` is present exactly when
a joined response row exists. -/
def rowToRequestLog (q : HttpRequestLogsQuery)
    (row : HttpRequestRow × Option HttpResponseRow) : RequestLog :=
  let sel (c : String) : Bool := q.requestCols.contains c
  { id := row.1.id
    proto := if sel "req.proto AS req_proto" then row.1.proto else ""
    url := if sel "req.url" then row.1.url else ""
    method := if sel "req.method" then row.1.method else ""
    body := if sel "req.body AS req_body" then row.1.body else []
    timestamp := if sel "req.timestamp AS req_timestamp" then row.1.timestamp else 0
    header := none
    response :=
      match row.2 with
      | none => none
      | some res =>
        some
          { id := res.id
            requestId := if sel "res.req_id AS res_req_id" then res.reqId else 0
            proto := if sel "res.proto AS res_proto" then res.proto else ""
            statusCode := if sel "res.status_code" then res.statusCode else 0
            statusReason := if sel "res.status_reason" then res.statusReason else ""
            body := if sel "res.body AS res_body" then res.body else []
            timestamp := if sel "res.timestamp AS res_timestamp" then res.timestamp else 0
            header := none } }

/-- `rows.Scan(&key, &value)` inside `findHeaders`: succeeds only when the
statement produced exactly two columns, binding them in column order (so a
projection that selected a single header column fails here). -/
def scanHeaderRow (cols : List String) (r : HttpHeaderRow) :
    Except String (String × String) :=
  match cols with
  | [c1, c2] =>
    let colVal (c : String) : String :=
      if c = "key" then r.key else if c = "value" then r.value else ""
    .ok (colVal c1, colVal c2)
  | _ => .error "sql: wrong number of Scan destinations"

/-- `findHeaders` (sqlite.go): run the prepared header query, scan each row
and accumulate with `http.Header.Add` (which canonicalizes the key). -/
def findHeadersGo (cols : List String) (rows : List HttpHeaderRow) (h : Headers) :
    Except String Headers :=
  match rows with
  | [] => .ok h
  | r :: rest =>
    match scanHeaderRow cols r with
    | .error e => .error e
    | .ok (k, v) => findHeadersGo cols rest (headerAdd h k v)

def findHeaders (cols : List String) (rows : List HttpHeaderRow) :
    Except String Headers :=
  findHeadersGo cols rows []

/-- First loop of `queryHeaders`: fetch request headers for every returned
log with the shared prepared statement (`WHERE req_id = ?`). -/
def attachReqHeaders (st : Store) (cols : List String) :
    List RequestLog → Except String (List RequestLog)
  | [] => .ok []
  | l :: rest =>
    match findHeaders cols (st.headers.filter (fun hr => decide (hr.reqId = some l.id))) with
    | .error e => .error e
    | .ok h =>
      match attachReqHeaders st cols rest with
      | .error e => .error e
      | .ok rest2 => .ok ({ l with header := some h } :: rest2)

/-- Second loop of `queryHeaders`: fetch response headers
(`WHERE res_id = ?`), skipping logs whose response is absent. -/
def attachResHeaders (st : Store) (cols : List String) :
    List RequestLog → Except String (List RequestLog)
  | [] => .ok []
  | l :: rest =>
    match l.response with
    | none =>
      match attachResHeaders st cols rest with
      | .error e => .error e
      | .ok rest2 => .ok (l :: rest2)
    | some res =>
      match findHeaders cols (st.headers.filter (fun hr => decide (hr.resId = some res.id))) with
      | .error e => .error e
      | .ok h =>
        match attachResHeaders st cols rest with
        | .error e => .error e
        | .ok rest2 => .ok ({ l with response := some { res with header := some h } } :: rest2)

/-- `queryHeaders` (sqlite.go): run the request-header loop when request
header columns were projected, then the response-header loop likewise. -/
def queryHeaders (st : Store) (q : HttpRequestLogsQuery) (logs : List RequestLog) :
    Except String (List RequestLog) :=
  match (if q.requestHeaderCols.length > 0 then attachReqHeaders st q.requestHeaderCols logs
         else .ok logs) with
  | .error e => .error e
  | .ok logs1 =>
    if q.responseHeaderCols.length > 0 then attachResHeaders st q.responseHeaderCols logs1
    else .ok logs1

/-- `FindRequestLogs` (sqlite.go): plan the projection, build
`SELECT <cols> FROM http_requests req [LEFT JOIN http_responses res ...]
ORDER BY req.id DESC` and execute it.  The call site passes one spurious
`nil` arg to this zero-placeholder query; the driver's query loop binds
`args[:NumInput()]` and drops the excess, so it is harmless (a shortfall of
args would error, an excess does not). -/
def FindRequestLogs (st : Store) (proj : List FieldL0) :
    Except DbError (List RequestLog) :=
  if !baseQueryValid (parseHTTPRequestLogsQuery proj) then
    .error (.other "sqlite: could not execute query: no such column: res.id")
  else
    match queryHeaders st (parseHTTPRequestLogsQuery proj)
        ((joinRows (parseHTTPRequestLogsQuery proj) st.responses
            (sortByIdDesc st.requests)).map
          (rowToRequestLog (parseHTTPRequestLogsQuery proj))) with
    | .error e => .error (.other ("sqlite: could not query headers: " ++ e))
    | .ok logs2 => .ok logs2

/-- `FindRequestLogByID` (sqlite.go): same base query with `WHERE req.id = ?`
via `QueryRowx`; `sql.ErrNoRows` becomes `reqlog.ErrRequestNotFound`, then the
single log goes through `queryHeaders`. -/
def FindRequestLogByID (st : Store) (proj : List FieldL0) (id : Int) :
    Except DbError RequestLog :=
  if !baseQueryValid (parseHTTPRequestLogsQuery proj) then
    .error (.other "sqlite: could not scan row: no such column: res.id")
  else
    match (joinRows (parseHTTPRequestLogsQuery proj) st.responses
        (st.requests.filter (fun r => decide (r.id = id)))).head? with
    | none => .error .requestNotFound
    | some row =>
      match queryHeaders st (parseHTTPRequestLogsQuery proj)
          [rowToRequestLog (parseHTTPRequestLogsQuery proj) row] with
      | .error e => .error (.other ("sqlite: could not query headers: " ++ e))
      | .ok logs => .ok (logs.getD 0 (rowToRequestLog (parseHTTPRequestLogsQuery proj) row))

/-- The full projection: every request field, request headers with both
columns, and the response with every field and both header columns. -/
def fullProjection : List FieldL0 :=
  [⟨"proto", []⟩, ⟨"url", []⟩, ⟨"method", []⟩, ⟨"body", []⟩, ⟨"timestamp", []⟩,
   ⟨"headers", [⟨"key", []⟩, ⟨"value", []⟩]⟩,
   ⟨"response",
     [⟨"requestId", []⟩, ⟨"proto", []⟩, ⟨"statusCode", []⟩, ⟨"statusReason", []⟩,
      ⟨"body", []⟩, ⟨"timestamp", []⟩, ⟨"headers", [⟨"key"⟩, ⟨"value"⟩]⟩]⟩]

/-! ## API layer (`parseRequestLog` and the GraphQL resolvers) -/

/-- Modelled from the spec: the gqlgen-generated `HTTPMethod.IsValid`
(generated models are not under src/): membership in the recognized method
set GET, HEAD, POST, PUT, DELETE, CONNECT, OPTIONS, TRACE, PATCH. -/
def HTTPMethod.isValid (m : String) : Bool :=
  ["GET", "HEAD", "POST", "PUT", "DELETE", "CONNECT", "OPTIONS", "TRACE",
   "PATCH"].contains m

/-- A GraphQL `HTTPHeader` object. -/
structure APIHeader where
  key : String
  value : String
  deriving Repr, DecidableEq

/-- A GraphQL `HTTPResponseLog` object (the `status` string is irrelevant to
the claims and omitted). `body = none` serializes as a null field. -/
structure APIResponseLog where
  requestId : Int
  proto : String
  statusCode : Int
  body : Option (List Nat)
  headers : Option (List APIHeader)
  deriving Repr, DecidableEq

/-- A GraphQL `HTTPRequestLog` object.  (`id` is surfaced textually in the
API; the textual mapping is out of scope, the integer identifies it.) -/
structure APIRequestLog where
  id : Int
  url : String
  proto : String
  method : String
  timestamp : Nat
  body : Option (List Nat)
  headers : Option (List APIHeader)
  response : Option APIResponseLog
  deriving Repr, DecidableEq

/-- `parseRequestLog` (api package, shipped with LogsOverview.tsx): validate
the method, then populate the GraphQL object; a body becomes a non-null field
only when it has at least one byte; a nil header map stays absent. -/
def parseRequestLog (r : RequestLog) : Except String APIRequestLog :=
  if !HTTPMethod.isValid r.method then
    .error "request has invalid method"
  else
    .ok
      { id := r.id
        url := r.url
        proto := r.proto
        method := r.method
        timestamp := r.timestamp
        body := if r.body.length > 0 then some r.body else none
        headers := r.header.map (fun h =>
          (flattenHeaders h).map (fun p => ⟨p.1, p.2⟩))
        response := r.response.map (fun res =>
          { requestId := r.id
            proto := res.proto
            statusCode := res.statusCode
            body := if res.body.length > 0 then some res.body else none
            headers := res.header.map (fun h =>
              (flattenHeaders h).map (fun p => ⟨p.1, p.2⟩)) }) }

/-! ## Header multi-map algebra

Lemmas about `hLookup`, `headerAdd` and folds of `headerAdd`, used to relate
what `insertHeaders` wrote to what `findHeaders` reads back. -/

/-- A well-formed Go map: keys are pairwise distinct. -/
def nodupKeys (h : Headers) : Prop := (h.map Prod.fst).Nodup

theorem hLookup_cons (a : String × List String) (t : Headers) (k : String) :
    hLookup (a :: t) k = (if a.1 = k then a.2 else []) ++ hLookup t k := by
  unfold hLookup
  rw [List.filter_cons]
  by_cases h : a.1 = k <;> simp [h]

theorem hLookup_append (l1 l2 : Headers) (k : String) :
    hLookup (l1 ++ l2) k = hLookup l1 k ++ hLookup l2 k := by
  unfold hLookup
  rw [List.filter_append, List.flatMap_append]

theorem hLookup_eq_nil_of_not_mem (t : Headers) (k : String)
    (h : k ∉ t.map Prod.fst) : hLookup t k = [] := by
  induction t with
  | nil => rfl
  | cons a t ih =>
    rw [hLookup_cons]
    simp only [List.map_cons, List.mem_cons, not_or] at h
    rw [if_neg (fun he => h.1 he.symm), ih h.2]
    rfl

theorem headerAdd_cons_of_ne (e : String × List String) (t : Headers)
    (k v : String) (hne : e.1 ≠ canonicalMIMEHeaderKey k) :
    headerAdd (e :: t) k v = e :: headerAdd t k v := by
  have hd : decide (e.1 = canonicalMIMEHeaderKey k) = false := decide_eq_false hne
  unfold headerAdd
  simp only [List.any_cons, hd, Bool.false_or]
  by_cases h : (t.any fun x => decide (x.1 = canonicalMIMEHeaderKey k)) = true
  · rw [if_pos h, if_pos h, List.map_cons, if_neg hne]
  · rw [if_neg h, if_neg h, List.cons_append]

theorem headerAdd_cons_of_eq (e : String × List String) (t : Headers)
    (k v : String) (heq : e.1 = canonicalMIMEHeaderKey k)
    (hnm : canonicalMIMEHeaderKey k ∉ t.map Prod.fst) :
    headerAdd (e :: t) k v = (e.1, e.2 ++ [v]) :: t := by
  have hd : decide (e.1 = canonicalMIMEHeaderKey k) = true := decide_eq_true heq
  have hmap : (t.map fun x =>
      if x.1 = canonicalMIMEHeaderKey k then (x.1, x.2 ++ [v]) else x) = t := by
    have hid : ∀ x ∈ t,
        (if x.1 = canonicalMIMEHeaderKey k then (x.1, x.2 ++ [v]) else x) = x := by
      intro x hx
      exact if_neg (fun (h2 : x.1 = canonicalMIMEHeaderKey k) =>
        hnm (h2 ▸ List.mem_map_of_mem Prod.fst hx))
    rw [List.map_congr_left hid, List.map_id']
  unfold headerAdd
  simp only [List.any_cons, hd, Bool.true_or, if_true, List.map_cons, if_pos heq,
    hmap]

theorem keys_headerAdd (h : Headers) (k v : String) :
    (headerAdd h k v).map Prod.fst =
      if h.any (fun e => decide (e.1 = canonicalMIMEHeaderKey k)) then h.map Prod.fst
      else h.map Prod.fst ++ [canonicalMIMEHeaderKey k] := by
  unfold headerAdd
  by_cases hc : h.any (fun e => decide (e.1 = canonicalMIMEHeaderKey k))
  · rw [if_pos hc, if_pos hc, List.map_map]
    apply List.map_congr_left
    intro e _
    by_cases he : e.1 = canonicalMIMEHeaderKey k <;> simp [he]
  · rw [if_neg hc, if_neg hc, List.map_append]
    rfl

theorem nodupKeys_headerAdd (h : Headers) (k v : String) (hn : nodupKeys h) :
    nodupKeys (headerAdd h k v) := by
  unfold nodupKeys
  rw [keys_headerAdd]
  by_cases hc : h.any (fun e => decide (e.1 = canonicalMIMEHeaderKey k))
  · rwa [if_pos hc]
  · rw [if_neg hc]
    simp only [List.any_eq_true, decide_eq_true_eq, not_exists, not_and] at hc
    refine List.Nodup.append hn (List.nodup_singleton _) ?_
    intro x hx hx2
    rw [List.mem_singleton] at hx2
    obtain ⟨e, he, rfl⟩ := List.mem_map.1 hx
    exact hc e he hx2

theorem hLookup_headerAdd (h : Headers) (k v k2 : String) (hn : nodupKeys h) :
    hLookup (headerAdd h k v) k2 =
      if k2 = canonicalMIMEHeaderKey k then hLookup h k2 ++ [v] else hLookup h k2 := by
  induction h with
  | nil =>
    have h1 : headerAdd [] k v = [(canonicalMIMEHeaderKey k, [v])] := rfl
    rw [h1, hLookup_cons]
    by_cases hk : k2 = canonicalMIMEHeaderKey k
    · rw [if_pos hk, if_pos hk.symm]
      simp [hLookup]
    · rw [if_neg hk, if_neg (fun he => hk he.symm)]
      simp [hLookup]
  | cons e t ih =>
    have hn2 : nodupKeys t := (List.nodup_cons.1 hn).2
    have hem : e.1 ∉ t.map Prod.fst := (List.nodup_cons.1 hn).1
    by_cases he : e.1 = canonicalMIMEHeaderKey k
    · rw [headerAdd_cons_of_eq e t k v he (he ▸ hem)]
      simp only [hLookup_cons]
      have ht : hLookup t (canonicalMIMEHeaderKey k) = [] :=
        hLookup_eq_nil_of_not_mem t _ (he ▸ hem)
      by_cases hk : k2 = canonicalMIMEHeaderKey k
      · rw [if_pos hk, if_pos (he.trans hk.symm), if_pos (he.trans hk.symm), hk, ht]
        simp
      · have hne : ¬ e.1 = k2 := fun h2 => hk (h2.symm.trans he)
        rw [if_neg hk, if_neg hne, if_neg hne]
    · rw [headerAdd_cons_of_ne e t k v he]
      simp only [hLookup_cons]
      rw [ih hn2]
      by_cases hk : k2 = canonicalMIMEHeaderKey k
      · rw [if_pos hk, if_pos hk, List.append_assoc]
      · rw [if_neg hk, if_neg hk]

/-- Folding `headerAdd` over flat `(key, value)` pairs: the lookup at `k2`
collects, in order, the values of all pairs whose canonicalized key is `k2`. -/
theorem hLookup_foldl_headerAdd (pairs : List (String × String)) (h0 : Headers)
    (k2 : String) (hn : nodupKeys h0) :
    hLookup (pairs.foldl (fun h p => headerAdd h p.1 p.2) h0) k2 =
      hLookup h0 k2 ++
        (pairs.filter (fun p => decide (canonicalMIMEHeaderKey p.1 = k2))).map Prod.snd := by
  induction pairs generalizing h0 with
  | nil => simp
  | cons p rest ih =>
    rw [List.foldl_cons, ih _ (nodupKeys_headerAdd h0 p.1 p.2 hn),
        hLookup_headerAdd h0 p.1 p.2 k2 hn, List.filter_cons]
    by_cases hk : canonicalMIMEHeaderKey p.1 = k2
    · rw [if_pos hk.symm, if_pos (decide_eq_true hk), List.map_cons,
          List.append_assoc]
      rfl
    · rw [if_neg (fun h2 => hk h2.symm),
          if_neg (fun hd => hk (of_decide_eq_true hd))]

/-! ## Flattened pairs vs. the multi-map -/

theorem filter_map_pair (k0 : String) (vs : List String) (p : String → Bool) :
    (vs.map (fun v => (k0, v))).filter (fun q => p q.1) =
      if p k0 then vs.map (fun v => (k0, v)) else [] := by
  induction vs with
  | nil => by_cases h : p k0 = true <;> simp [h]
  | cons v vs ih =>
    rw [List.map_cons, List.filter_cons]
    by_cases h : p k0 = true
    · rw [if_pos h, if_pos h, ih, if_pos h]
    · rw [if_neg h, if_neg h, ih, if_neg h]

theorem map_snd_map_pair (k0 : String) (vs : List String) :
    (vs.map (fun v => (k0, v))).map Prod.snd = vs := by
  rw [List.map_map]
  exact List.map_id' vs

/-- Keys occurring in the flattened pairs are keys of the map. -/
theorem fst_mem_of_mem_flattenHeaders (hs : Headers) (p : String × String)
    (hp : p ∈ flattenHeaders hs) : p.1 ∈ hs.map Prod.fst := by
  unfold flattenHeaders at hp
  rw [List.mem_flatMap] at hp
  obtain ⟨e, he, hpe⟩ := hp
  obtain ⟨v, _, rfl⟩ := List.mem_map.1 hpe
  exact List.mem_map_of_mem Prod.fst he

/-- Selecting from the flattened pairs by literal key equality recovers the
multi-map lookup. -/
theorem flattenHeaders_filter (hs : Headers) (k2 : String) :
    ((flattenHeaders hs).filter (fun p => decide (p.1 = k2))).map Prod.snd =
      hLookup hs k2 := by
  induction hs with
  | nil => rfl
  | cons e t ih =>
    have hflat : flattenHeaders (e :: t) =
        (e.2.map fun v => (e.1, v)) ++ flattenHeaders t := rfl
    rw [hflat, List.filter_append, List.map_append, ih, hLookup_cons,
        filter_map_pair e.1 e.2 (fun x => decide (x = k2))]
    by_cases h : e.1 = k2
    · rw [if_pos (decide_eq_true h), if_pos h, map_snd_map_pair]
    · rw [if_neg (fun hd => h (of_decide_eq_true hd)), if_neg h, List.map_nil]

/-- Same, but filtering through the canonicalization — for maps whose keys are
all already canonical the two coincide. -/
theorem flattenHeaders_filter_canon (hs : Headers) (k2 : String)
    (hcanon : ∀ e ∈ hs, canonicalMIMEHeaderKey e.1 = e.1) :
    ((flattenHeaders hs).filter
        (fun p => decide (canonicalMIMEHeaderKey p.1 = k2))).map Prod.snd =
      hLookup hs k2 := by
  rw [← flattenHeaders_filter hs k2]
  congr 1
  apply List.filter_congr
  intro p hp
  obtain ⟨e, he, hfst⟩ := List.mem_map.1 (fst_mem_of_mem_flattenHeaders hs p hp)
  rw [← hfst, hcanon e he]

/-- For a map whose keys canonicalize injectively, filtering the flattened
pairs at the canonical image of a present key recovers exactly that entry's
values. -/
theorem flattenHeaders_filter_canon_mem (hs : Headers) (k : String)
    (vs : List String)
    (hnodup : (hs.map fun e => canonicalMIMEHeaderKey e.1).Nodup)
    (hmem : (k, vs) ∈ hs) :
    ((flattenHeaders hs).filter
        (fun p => decide (canonicalMIMEHeaderKey p.1 = canonicalMIMEHeaderKey k))).map
        Prod.snd = vs := by
  induction hs with
  | nil => cases hmem
  | cons e t ih =>
    have hflat : flattenHeaders (e :: t) =
        (e.2.map fun v => (e.1, v)) ++ flattenHeaders t := rfl
    have hn2 : (t.map fun e => canonicalMIMEHeaderKey e.1).Nodup :=
      (List.nodup_cons.1 hnodup).2
    have hnm : canonicalMIMEHeaderKey e.1 ∉
        t.map fun x => canonicalMIMEHeaderKey x.1 := (List.nodup_cons.1 hnodup).1
    rw [hflat, List.filter_append, List.map_append,
        filter_map_pair e.1 e.2
          (fun x => decide (canonicalMIMEHeaderKey x = canonicalMIMEHeaderKey k))]
    rcases List.mem_cons.1 hmem with heq | hmemt
    · have hek : e.1 = k := (congrArg Prod.fst heq).symm
      have hev : e.2 = vs := (congrArg Prod.snd heq).symm
      have htnil : (flattenHeaders t).filter
          (fun p => decide (canonicalMIMEHeaderKey p.1 = canonicalMIMEHeaderKey k)) = [] := by
        apply List.filter_eq_nil_iff.2
        intro p hp
        obtain ⟨x, hx, hfst⟩ := List.mem_map.1 (fst_mem_of_mem_flattenHeaders t p hp)
        intro hd
        have : canonicalMIMEHeaderKey x.1 = canonicalMIMEHeaderKey k := by
          rw [hfst]; exact of_decide_eq_true hd
        exact hnm (hek ▸ this ▸ List.mem_map_of_mem (fun y => canonicalMIMEHeaderKey y.1) hx)
      rw [htnil, List.map_nil, List.append_nil,
          if_pos (decide_eq_true (by rw [hek])), map_snd_map_pair, hev]
    · have hne : ¬ canonicalMIMEHeaderKey e.1 = canonicalMIMEHeaderKey k := by
        intro hcontra
        exact hnm (hcontra ▸
          List.mem_map_of_mem (fun y => canonicalMIMEHeaderKey y.1) hmemt)
      rw [if_neg (fun hd => hne (of_decide_eq_true hd)), List.map_nil,
          List.nil_append]
      exact ih hn2 hmemt

/-! ## Characterizing the write path -/

/-- The header rows `insertHeaders` produces, with rowids counting up from
`startId`. -/
def mkHeaderRows (setRef : Int → HttpHeaderRow) (startId : Int) :
    List (String × String) → List HttpHeaderRow
  | [] => []
  | p :: rest =>
    { setRef startId with key := p.1, value := p.2 } ::
      mkHeaderRows setRef (startId + 1) rest

theorem mkHeaderRows_map_kv (setRef : Int → HttpHeaderRow) (startId : Int)
    (pairs : List (String × String)) :
    (mkHeaderRows setRef startId pairs).map (fun r => (r.key, r.value)) = pairs := by
  induction pairs generalizing startId with
  | nil => rfl
  | cons p rest ih => simp [mkHeaderRows, ih]

theorem mkHeaderRows_req_fields (rid : Int) (startId : Int)
    (pairs : List (String × String)) :
    ∀ r ∈ mkHeaderRows (reqHeaderRow rid) startId pairs,
      r.reqId = some rid ∧ r.resId = none := by
  induction pairs generalizing startId with
  | nil => intro r hr; cases hr
  | cons p rest ih =>
    intro r hr
    rcases List.mem_cons.1 hr with rfl | hr2
    · exact ⟨rfl, rfl⟩
    · exact ih (startId + 1) r hr2

theorem insertHeaders_none (pairs : List (String × String))
    (setRef : Int → HttpHeaderRow) (step : Nat) (tx : Store) :
    insertHeaders pairs setRef step none tx = .ok
      { tx with
          headers := tx.headers ++ mkHeaderRows setRef tx.nextHeaderId pairs,
          nextHeaderId := tx.nextHeaderId + pairs.length } := by
  induction pairs generalizing step tx with
  | nil => simp [insertHeaders, mkHeaderRows]
  | cons p rest ih =>
    obtain ⟨k, v⟩ := p
    rw [insertHeaders, if_neg (fun h => Option.noConfusion h), ih]
    simp only [mkHeaderRows, Except.ok.injEq, Store.mk.injEq, and_true, true_and]
    constructor
    · simp [List.append_assoc]
    · simp only [List.length_cons]
      omega

theorem insertHeaders_ok (pairs : List (String × String))
    (setRef : Int → HttpHeaderRow) (step : Nat) (failAt : Option Nat)
    (tx tx2 : Store) (h : insertHeaders pairs setRef step failAt tx = .ok tx2) :
    tx2 =
      { tx with
          headers := tx.headers ++ mkHeaderRows setRef tx.nextHeaderId pairs,
          nextHeaderId := tx.nextHeaderId + pairs.length } := by
  induction pairs generalizing step tx with
  | nil =>
    rw [insertHeaders] at h
    cases h
    simp [mkHeaderRows]
  | cons p rest ih =>
    obtain ⟨k, v⟩ := p
    rw [insertHeaders] at h
    by_cases hf : failAt = some step
    · rw [if_pos hf] at h
      cases h
    · rw [if_neg hf] at h
      have h2 := ih (step + 1) _ h
      rw [h2]
      simp only [mkHeaderRows, Store.mk.injEq, and_true, true_and]
      constructor
      · simp [List.append_assoc]
      · simp only [List.length_cons]
        omega

theorem AddRequestLog_none (st : Store) (req : HttpRequestIn) (body : List Nat)
    (ts : Nat) :
    AddRequestLog st req body ts none =
      (.ok ⟨st.nextReqId, req.proto, req.urlStr, req.method, body, ts,
            some req.header, none⟩,
       { st with
           requests := st.requests ++
             [⟨st.nextReqId, req.proto, req.urlStr, req.method, body, ts⟩],
           headers := st.headers ++
             mkHeaderRows (reqHeaderRow st.nextReqId) st.nextHeaderId
               (flattenHeaders req.header),
           nextReqId := st.nextReqId + 1,
           nextHeaderId := st.nextHeaderId + (flattenHeaders req.header).length }) := by
  rw [AddRequestLog]
  rw [if_neg (fun h => Option.noConfusion h), if_neg (fun h => Option.noConfusion h),
      if_neg (fun h => Option.noConfusion h), if_neg (fun h => Option.noConfusion h),
      if_neg (fun h => Option.noConfusion h)]
  rw [insertHeaders_none]
  rfl

theorem AddResponseLog_none (st : Store) (reqId : Int) (res : HttpResponseIn)
    (body : List Nat) (ts : Nat) :
    AddResponseLog st reqId res body ts none =
      (.ok ⟨st.nextResId, reqId, res.proto, res.statusCode,
            statusReasonFromLine res.status, body, ts, some res.header⟩,
       { st with
           responses := st.responses ++
             [⟨st.nextResId, reqId, res.proto, res.statusCode,
               statusReasonFromLine res.status, body, ts⟩],
           headers := st.headers ++
             mkHeaderRows (resHeaderRow st.nextResId) st.nextHeaderId
               (flattenHeaders res.header),
           nextResId := st.nextResId + 1,
           nextHeaderId := st.nextHeaderId + (flattenHeaders res.header).length }) := by
  rw [AddResponseLog]
  rw [if_neg (fun h => Option.noConfusion h), if_neg (fun h => Option.noConfusion h),
      if_neg (fun h => Option.noConfusion h), if_neg (fun h => Option.noConfusion h),
      if_neg (fun h => Option.noConfusion h)]
  rw [insertHeaders_none]
  rfl

/-! ## Read-path helper lemmas -/

theorem scanHeaderRow_kv (r : HttpHeaderRow) :
    scanHeaderRow ["key", "value"] r = .ok (r.key, r.value) := rfl

theorem findHeadersGo_kv (rows : List HttpHeaderRow) (h0 : Headers) :
    findHeadersGo ["key", "value"] rows h0 =
      .ok (rows.foldl (fun h r => headerAdd h r.key r.value) h0) := by
  induction rows generalizing h0 with
  | nil => rfl
  | cons r rest ih =>
    rw [findHeadersGo, scanHeaderRow_kv]
    show findHeadersGo ["key", "value"] rest (headerAdd h0 r.key r.value) =
      Except.ok (List.foldl (fun h r => headerAdd h r.key r.value) h0 (r :: rest))
    rw [ih, List.foldl_cons]

theorem findHeaders_kv (rows : List HttpHeaderRow) :
    findHeaders ["key", "value"] rows =
      .ok ((rows.map (fun r => (r.key, r.value))).foldl
            (fun h p => headerAdd h p.1 p.2) []) := by
  rw [findHeaders, findHeadersGo_kv, List.foldl_map]

/-- A `Scan` into `(&key, &value)` fails as soon as there is a row but only
one selected column. -/
theorem findHeaders_single_col_error (c : String) (r : HttpHeaderRow)
    (rows : List HttpHeaderRow) :
    findHeaders [c] (r :: rows) = .error "sql: wrong number of Scan destinations" := rfl

theorem insertDesc_append_of_lt (r : HttpRequestRow) (m : List HttpRequestRow)
    (h : ∀ x ∈ m, r.id < x.id) : insertDesc r m = m ++ [r] := by
  induction m with
  | nil => rfl
  | cons x xs ih =>
    rw [insertDesc, if_neg (by
      have := h x (List.mem_cons_self x xs)
      omega)]
    rw [ih (fun y hy => h y (List.mem_cons_of_mem x hy)), List.cons_append]

/-- `ORDER BY id DESC` on rows whose ids are strictly increasing in table
order is exactly list reversal. -/
theorem sortByIdDesc_of_ascending (l : List HttpRequestRow)
    (h : l.Pairwise (fun a b => a.id < b.id)) :
    sortByIdDesc l = l.reverse := by
  induction l with
  | nil => rfl
  | cons a t ih =>
    have h1 : ∀ x ∈ t, a.id < x.id := fun x hx => (List.pairwise_cons.1 h).1 x hx
    have h2 := (List.pairwise_cons.1 h).2
    show insertDesc a (sortByIdDesc t) = (a :: t).reverse
    rw [ih h2, insertDesc_append_of_lt a t.reverse
        (fun x hx => h1 x (List.mem_reverse.1 hx)), List.reverse_cons]

/-- Store invariants maintained by the write paths: every stored id is below
its table's next rowid (used to know a fresh id cannot collide). -/
def storeWF (st : Store) : Prop :=
  (∀ r ∈ st.requests, r.id < st.nextReqId) ∧
  (∀ s ∈ st.responses, s.reqId < st.nextReqId ∧ s.id < st.nextResId) ∧
  (∀ hr ∈ st.headers, (∀ i, hr.reqId = some i → i < st.nextReqId) ∧
    (∀ i, hr.resId = some i → i < st.nextResId))

theorem storeWF_empty : storeWF emptyStore := by
  refine ⟨?_, ?_, ?_⟩ <;> intro x hx <;> cases hx

theorem filter_requests_fresh (st : Store) (row : HttpRequestRow)
    (hwf : storeWF st) (hid : row.id = st.nextReqId) :
    (st.requests ++ [row]).filter (fun r => decide (r.id = st.nextReqId)) = [row] := by
  rw [List.filter_append]
  have h1 : st.requests.filter (fun r => decide (r.id = st.nextReqId)) = [] := by
    apply List.filter_eq_nil_iff.2
    intro r hr hd
    have := hwf.1 r hr
    rw [of_decide_eq_true hd] at this
    omega
  rw [h1, List.nil_append, List.filter_cons, if_pos (decide_eq_true hid)]
  rfl

theorem leftJoinResponses_fresh (responses : List HttpResponseRow)
    (row : HttpRequestRow) (h : ∀ s ∈ responses, s.reqId ≠ row.id) :
    leftJoinResponses responses row = [(row, none)] := by
  unfold leftJoinResponses
  have hf : responses.filter (fun res => decide (res.reqId = row.id)) = [] := by
    apply List.filter_eq_nil_iff.2
    intro s hs hd
    exact h s hs (of_decide_eq_true hd)
  rw [hf]

theorem filter_headers_fresh (st : Store) (rid : Int) (startId : Int)
    (pairs : List (String × String)) (hwf : storeWF st)
    (hid : st.nextReqId ≤ rid) :
    ((st.headers ++ mkHeaderRows (reqHeaderRow rid) startId pairs).filter
        (fun hr => decide (hr.reqId = some rid))) =
      mkHeaderRows (reqHeaderRow rid) startId pairs := by
  rw [List.filter_append]
  have h1 : st.headers.filter (fun hr => decide (hr.reqId = some rid)) = [] := by
    apply List.filter_eq_nil_iff.2
    intro hr hhr hd
    have := ((hwf.2.2 hr hhr).1 rid (of_decide_eq_true hd))
    omega
  have h2 : (mkHeaderRows (reqHeaderRow rid) startId pairs).filter
      (fun hr => decide (hr.reqId = some rid)) =
      mkHeaderRows (reqHeaderRow rid) startId pairs := by
    apply List.filter_eq_self.2
    intro r hr
    exact decide_eq_true (mkHeaderRows_req_fields rid startId pairs r hr).1
  rw [h1, h2, List.nil_append]

/-! ## Iterated inserts (for the find-all ordering property) -/

/-- One `AddRequestLog` call's arguments. -/
structure InsertReq where
  req : HttpRequestIn
  body : List Nat
  ts : Nat

/-- Insert the requests one after the other on one connection, none failing. -/
def insertMany (st : Store) : List InsertReq → Store
  | [] => st
  | c :: rest => insertMany (AddRequestLog st c.req c.body c.ts none).2 rest

/-- `[start, start+1, ..., start+n-1]` as integers. -/
def intRange (start : Int) : Nat → List Int
  | 0 => []
  | n + 1 => start :: intRange (start + 1) n

theorem insertMany_requests_ids (cs : List InsertReq) (st : Store) :
    (insertMany st cs).requests.map HttpRequestRow.id =
        st.requests.map HttpRequestRow.id ++ intRange st.nextReqId cs.length ∧
      (insertMany st cs).nextReqId = st.nextReqId + cs.length ∧
      (insertMany st cs).responses = st.responses := by
  induction cs generalizing st with
  | nil => simp [insertMany, intRange]
  | cons c rest ih =>
    rw [insertMany, AddRequestLog_none]
    obtain ⟨h1, h2, h3⟩ := ih
      { st with
          requests := st.requests ++
            [⟨st.nextReqId, c.req.proto, c.req.urlStr, c.req.method, c.body, c.ts⟩],
          headers := st.headers ++
            mkHeaderRows (reqHeaderRow st.nextReqId) st.nextHeaderId
              (flattenHeaders c.req.header),
          nextReqId := st.nextReqId + 1,
          nextHeaderId := st.nextHeaderId + (flattenHeaders c.req.header).length }
    refine ⟨?_, ?_, h3⟩
    · rw [h1]
      simp only [List.map_append, List.map_cons, List.map_nil, List.length_cons,
        intRange, List.append_assoc]
      rfl
    · rw [h2]
      simp only [List.length_cons]
      omega

theorem insertMany_pairwise (cs : List InsertReq) (st : Store)
    (hpw : st.requests.Pairwise (fun a b => a.id < b.id))
    (hlt : ∀ r ∈ st.requests, r.id < st.nextReqId) :
    (insertMany st cs).requests.Pairwise (fun a b => a.id < b.id) := by
  induction cs generalizing st with
  | nil => exact hpw
  | cons c rest ih =>
    rw [insertMany, AddRequestLog_none]
    apply ih
    · rw [List.pairwise_append]
      refine ⟨hpw, List.pairwise_singleton _ _, ?_⟩
      intro a ha b hb
      rw [List.mem_singleton] at hb
      subst hb
      exact hlt a ha
    · intro r hr
      rcases List.mem_append.1 hr with h | h
      · have := hlt r h
        simp only []
        omega
      · rw [List.mem_singleton] at h
        subst h
        simp only []
        omega

/-! ## Claim theorems -/

/-- C2.  `AddRequestLog` is atomic: whichever step fails (begin, prepares,
request insert, rowid read, any header insert, commit), the error is returned
and the store is exactly as before the call — a request row without its header
rows is never committed; and a successful call returns the record carrying the
store-assigned id, with the request row and all its header rows committed
together. -/
theorem AddRequestLog_atomic (st : Store) (req : HttpRequestIn)
    (body : List Nat) (ts : Nat) (failAt : Option Nat) :
    (∀ e st2, AddRequestLog st req body ts failAt = (.error e, st2) → st2 = st) ∧
    (∀ r st2, AddRequestLog st req body ts failAt = (.ok r, st2) →
      r.id = st.nextReqId ∧
      st2 = { st with
          requests := st.requests ++
            [⟨st.nextReqId, req.proto, req.urlStr, req.method, body, ts⟩],
          headers := st.headers ++
            mkHeaderRows (reqHeaderRow st.nextReqId) st.nextHeaderId
              (flattenHeaders req.header),
          nextReqId := st.nextReqId + 1,
          nextHeaderId := st.nextHeaderId + (flattenHeaders req.header).length }) := by
  constructor
  · intro e st2 h
    rw [AddRequestLog] at h
    repeat' split at h
    all_goals
      first
        | exact (congrArg Prod.snd h).symm
        | exact Except.noConfusion (congrArg Prod.fst h)
  · intro r st2 h
    rw [AddRequestLog] at h
    repeat' split at h
    all_goals try exact Except.noConfusion (congrArg Prod.fst h)
    rename_i tx2 heq hcommit
    have hr : r = ⟨st.nextReqId, req.proto, req.urlStr, req.method, body, ts,
        some req.header, none⟩ := (Except.ok.inj (congrArg Prod.fst h)).symm
    have hst : st2 = tx2 := (congrArg Prod.snd h).symm
    have hc := insertHeaders_ok (flattenHeaders req.header)
      (reqHeaderRow st.nextReqId) 5 failAt _ tx2 heq
    subst hst
    rw [hc, hr]
    exact ⟨rfl, rfl⟩

def wReq : HttpRequestIn := ⟨"GET", "http://x.test/a", "HTTP/1.1", [("A", ["1", "2"])]⟩

/-- Witness for C2 at a concrete failing step (the request-row INSERT). -/
theorem AddRequestLog_atomic_witness :
    AddRequestLog emptyStore wReq [] 7 (some 2) =
      (.error "sqlite: could not execute statement", emptyStore) ∧
    emptyStore = emptyStore :=
  ⟨rfl, (AddRequestLog_atomic emptyStore wReq [] 7 (some 2)).1 _ _ rfl⟩

/-- C4 (code bug).  The planner's initial column list already contains
`res.id AS res_id`, so for a projection touching no response field (here:
only `url`) the join is absent yet `res.id` is still selected — contradicting
"res.id is selected exactly when the join is present" (and making the
generated SQL invalid).  `req.id` is indeed always selected. -/
theorem parseHTTPRequestLogsQuery_url_selects_res_id :
    (parseHTTPRequestLogsQuery [⟨"url", []⟩]).joinResponse = false ∧
    "res.id AS res_id" ∈ (parseHTTPRequestLogsQuery [⟨"url", []⟩]).requestCols ∧
    "req.id AS req_id" ∈ (parseHTTPRequestLogsQuery [⟨"url", []⟩]).requestCols := by
  decide

/-- C3 (code bug).  With one request inserted and a projection selecting only
`url`, `FindRequestLogs` does not return that record in descending-id order:
the generated `SELECT ... res.id AS res_id ... FROM http_requests req` has no
`LEFT JOIN http_responses res`, so SQLite rejects the query and an error is
returned instead. -/
theorem FindRequestLogs_url_projection_errors :
    FindRequestLogs
        (AddRequestLog emptyStore ⟨"GET", "http://x.test/a", "HTTP/1.1", []⟩ [] 7 none).2
        [⟨"url", []⟩] =
      .error (.other "sqlite: could not execute query: no such column: res.id") ∧
    ((AddRequestLog emptyStore ⟨"GET", "http://x.test/a", "HTTP/1.1", []⟩ [] 7 none).2).requests.length
      = 1 := ⟨rfl, rfl⟩

/-- C5 (code bug).  On an empty store (so no request with id 1 exists) but a
projection selecting only `url`, `FindRequestLogByID` does not surface the
distinct NotFound condition: the invalid base query (see C4) fails first and a
generic storage error is returned. -/
theorem FindRequestLogByID_url_projection_errors :
    FindRequestLogByID emptyStore [⟨"url", []⟩] 1 =
      .error (.other "sqlite: could not scan row: no such column: res.id") ∧
    emptyStore.requests = [] ∧
    DbError.other "sqlite: could not scan row: no such column: res.id" ≠
      DbError.requestNotFound :=
  ⟨rfl, rfl, by decide⟩

/-- The status reason exactly as the spec words it: the characters of the
status line from index 4 onward, empty when the line is shorter. -/
def specStatusReason (s : String) : String := ⟨s.data.drop 4⟩

theorem statusReasonFromLine_eq_spec (s : String) :
    statusReasonFromLine s = specStatusReason s := by
  unfold statusReasonFromLine specStatusReason
  by_cases h : s.length > 4
  · rw [if_pos h]
  · rw [if_neg h]
    have hle : s.data.length ≤ 4 := by
      have : s.length ≤ 4 := by omega
      exact this
    rw [List.drop_eq_nil_of_le hle]

/-- C6.  Every `AddResponseLog` stores a `status_reason` equal to the status
line's characters from index 4 on (empty when shorter); e.g. status line
`"200 OK"` yields reason `"OK"`. -/
theorem AddResponseLog_statusReason (st : Store) (reqId : Int)
    (res : HttpResponseIn) (body : List Nat) (ts : Nat) :
    ((AddResponseLog st reqId res body ts none).2).responses.map
        HttpResponseRow.statusReason =
      st.responses.map HttpResponseRow.statusReason ++ [specStatusReason res.status] ∧
    specStatusReason "200 OK" = "OK" := by
  constructor
  · rw [AddResponseLog_none]
    simp [statusReasonFromLine_eq_spec]
  · rfl

/-- C9.  Method validation happens only at the query-API boundary:
`AddRequestLog` succeeds for any method string (storing it verbatim), while
`parseRequestLog` fails exactly on records whose method is outside the
recognized set. -/
theorem method_validation_only_at_api :
    (∀ (st : Store) (req : HttpRequestIn) (body : List Nat) (ts : Nat),
      (AddRequestLog st req body ts none).1 =
        .ok ⟨st.nextReqId, req.proto, req.urlStr, req.method, body, ts,
             some req.header, none⟩ ∧
      ((AddRequestLog st req body ts none).2).requests.map HttpRequestRow.method =
        st.requests.map HttpRequestRow.method ++ [req.method]) ∧
    (∀ l : RequestLog,
      (∃ e, parseRequestLog l = .error e) ↔ HTTPMethod.isValid l.method = false) := by
  constructor
  · intro st req body ts
    rw [AddRequestLog_none]
    exact ⟨rfl, by simp⟩
  · intro l
    cases hv : HTTPMethod.isValid l.method <;> simp [parseRequestLog, hv]

/-- C10.  At the API layer a zero-length request or response body surfaces as
an absent (`none`) body field, and a body is populated exactly when it has at
least one byte. -/
theorem parseRequestLog_empty_body_absent (l : RequestLog) (out : APIRequestLog)
    (h : parseRequestLog l = .ok out) :
    (out.body = none ↔ l.body = []) ∧
    (l.body ≠ [] → out.body = some l.body) ∧
    (∀ res, l.response = some res → ∃ resOut, out.response = some resOut ∧
      ((resOut.body = none ↔ res.body = []) ∧
       (res.body ≠ [] → resOut.body = some res.body))) := by
  unfold parseRequestLog at h
  by_cases hv : HTTPMethod.isValid l.method
  · rw [if_neg (by simp [hv])] at h
    obtain rfl : out = _ := (Except.ok.inj h).symm
    refine ⟨?_, ?_, ?_⟩
    · by_cases hb : l.body = [] <;>
        simp [hb, List.length_pos_iff_ne_nil]
    · intro hb
      simp [hb, List.length_pos_iff_ne_nil]
    · intro res hres
      rw [hres]
      refine ⟨_, rfl, ?_, ?_⟩
      · by_cases hb : res.body = [] <;>
          simp [hb, List.length_pos_iff_ne_nil]
      · intro hb
        simp [hb, List.length_pos_iff_ne_nil]
  · rw [if_pos (by simp [hv])] at h
    exact Except.noConfusion h

def w10 : RequestLog :=
  ⟨1, "HTTP/1.1", "http://x.test/a", "GET", [], 7, none,
   some ⟨1, 1, "HTTP/1.1", 200, "OK", [104, 105], 7, none⟩⟩

def w10out : APIRequestLog :=
  ⟨1, "http://x.test/a", "HTTP/1.1", "GET", 7, none, none,
   some ⟨1, "HTTP/1.1", 200, some [104, 105], none⟩⟩

/-- Witness for C10: an empty request body surfaces as `none`, a two-byte
response body as a populated field. -/
theorem parseRequestLog_empty_body_absent_witness :
    parseRequestLog w10 = .ok w10out ∧
    ((w10out.body = none ↔ w10.body = []) ∧
     (w10.body ≠ [] → w10out.body = some w10.body) ∧
     (∀ res, w10.response = some res → ∃ resOut, w10out.response = some resOut ∧
       ((resOut.body = none ↔ res.body = []) ∧
        (res.body ≠ [] → resOut.body = some res.body)))) :=
  ⟨rfl, parseRequestLog_empty_body_absent w10 w10out rfl⟩

/-- C7 counterexample.  A header stored with key `"x-a"` by `insertHeaders`
comes back from `findHeaders` under the key `"X-A"`: `http.Header.Add`
canonicalizes, so the original casing of a non-canonical key is NOT
preserved. -/
theorem findHeaders_canonicalizes_key_cex :
    (insertHeaders (flattenHeaders [("x-a", ["1"])]) (reqHeaderRow 1) 5 none
        emptyStore).map (fun tx => findHeaders ["key", "value"] tx.headers) =
      .ok (.ok [("X-A", ["1"])]) ∧
    ("X-A" : String) ≠ "x-a" := ⟨rfl, by decide⟩

/-- C7 (amended).  Reading stored headers back preserves duplicate
`(key, value)` entries and the order of values within a key, but each key is
returned in MIME-canonical form: for a header map whose keys canonicalize
injectively, the value list of every entry is recovered verbatim under the
canonicalized key (so the casing is identical exactly when the stored key was
already canonical). -/
theorem insertHeaders_findHeaders_roundtrip (hs : Headers) (rid : Int)
    (hnodup : (hs.map fun e => canonicalMIMEHeaderKey e.1).Nodup) :
    ∃ tx, insertHeaders (flattenHeaders hs) (reqHeaderRow rid) 5 none emptyStore =
        .ok tx ∧
      ∃ h, findHeaders ["key", "value"] tx.headers = .ok h ∧
        ∀ k vs, (k, vs) ∈ hs → hLookup h (canonicalMIMEHeaderKey k) = vs := by
  refine ⟨_, insertHeaders_none (flattenHeaders hs) (reqHeaderRow rid) 5 emptyStore, ?_⟩
  rw [findHeaders_kv]
  refine ⟨_, rfl, ?_⟩
  intro k vs hmem
  show hLookup
    (((mkHeaderRows (reqHeaderRow rid) 1 (flattenHeaders hs)).map
        (fun r => (r.key, r.value))).foldl (fun h p => headerAdd h p.1 p.2) [])
    (canonicalMIMEHeaderKey k) = vs
  rw [mkHeaderRows_map_kv,
      hLookup_foldl_headerAdd (flattenHeaders hs) [] (canonicalMIMEHeaderKey k)
        (by simp [nodupKeys]),
      flattenHeaders_filter_canon_mem hs k vs hnodup hmem]
  rfl

def w7 : Headers := [("X-A", ["1", "1"]), ("Content-Type", ["text/plain"])]

/-- Witness for C7: canonical keys with a duplicated value round-trip
verbatim. -/
theorem insertHeaders_findHeaders_roundtrip_witness :
    ((w7.map fun e => canonicalMIMEHeaderKey e.1).Nodup) ∧
    (∃ tx, insertHeaders (flattenHeaders w7) (reqHeaderRow 1) 5 none emptyStore =
        .ok tx ∧
      ∃ h, findHeaders ["key", "value"] tx.headers = .ok h ∧
        ∀ k vs, (k, vs) ∈ w7 → hLookup h (canonicalMIMEHeaderKey k) = vs) :=
  ⟨by decide, insertHeaders_findHeaders_roundtrip w7 1 (by decide)⟩

theorem attachReqHeaders_kv (st : Store) (logs : List RequestLog) :
    ∃ logs2, attachReqHeaders st ["key", "value"] logs = .ok logs2 ∧
      logs2.length = logs.length ∧ ∀ l ∈ logs2, l.header.isSome = true := by
  induction logs with
  | nil => exact ⟨[], rfl, rfl, by intro l hl; cases hl⟩
  | cons l rest ih =>
    obtain ⟨logs2, h2, hlen, hall⟩ := ih
    have hstep : attachReqHeaders st ["key", "value"] (l :: rest) =
        .ok ({ l with header :=
            (some
              (((st.headers.filter (fun hr => decide (hr.reqId = some l.id))).map
                  (fun r => (r.key, r.value))).foldl
                (fun h p => headerAdd h p.1 p.2) [])) } :: logs2) := by
      rw [attachReqHeaders, findHeaders_kv, h2]
    refine ⟨_, hstep, ?_, ?_⟩
    · simp [hlen]
    · intro x hx
      rcases List.mem_cons.1 hx with rfl | hx2
      · rfl
      · exact hall x hx2

theorem attachResHeaders_kv (st : Store) (logs : List RequestLog) :
    ∃ logs2, attachResHeaders st ["key", "value"] logs = .ok logs2 ∧
      logs2.length = logs.length ∧
      logs2.map RequestLog.header = logs.map RequestLog.header := by
  induction logs with
  | nil => exact ⟨[], rfl, rfl, rfl⟩
  | cons l rest ih =>
    obtain ⟨logs2, h2, hlen, hmap⟩ := ih
    cases hres : l.response with
    | none =>
      have hstep : attachResHeaders st ["key", "value"] (l :: rest) =
          .ok (l :: logs2) := by
        rw [attachResHeaders, hres, h2]
      exact ⟨_, hstep, by simp [hlen], by simp [hmap]⟩
    | some res =>
      have hstep : attachResHeaders st ["key", "value"] (l :: rest) =
          .ok ({ l with response :=
              (some { res with header :=
                (some
                  (((st.headers.filter (fun hr => decide (hr.resId = some res.id))).map
                      (fun r => (r.key, r.value))).foldl
                    (fun h p => headerAdd h p.1 p.2) [])) }) } :: logs2) := by
        rw [attachResHeaders, hres]
        dsimp only
        rw [findHeaders_kv, h2]
      exact ⟨_, hstep, by simp [hlen], by simp [hmap]⟩

/-- C8 counterexample.  With one stored request carrying one header and a
projection selecting only the `key` header column (plus `response`, to keep
the base query well-formed), the per-row header fetch does NOT succeed: the
two-destination `Scan` in `findHeaders` fails against the single selected
column and `FindRequestLogByID` surfaces the error. -/
theorem findHeaders_single_col_projection_cex :
    FindRequestLogByID
        (AddRequestLog emptyStore ⟨"GET", "http://x.test/a", "HTTP/1.1", [("A", ["1"])]⟩
          [] 7 none).2
        [⟨"headers", [⟨"key", []⟩]⟩, ⟨"response", []⟩] 1 =
      .error (.other
        "sqlite: could not query headers: sql: wrong number of Scan destinations") ∧
    (parseHTTPRequestLogsQuery
        [⟨"headers", [⟨"key", []⟩]⟩, ⟨"response", []⟩]).requestHeaderCols = ["key"] :=
  ⟨rfl, rfl⟩

/-- C8 (amended).  When the request-header selection contains BOTH columns
(`key` and `value` — the improper subset), the header fetch built once from
the projected columns succeeds for every returned row and populates each
row's headers; a proper nonempty subset instead fails the two-destination
scan on any row (see the counterexample). -/
theorem queryHeaders_both_cols (st : Store) (q : HttpRequestLogsQuery)
    (logs : List RequestLog) (hreq : q.requestHeaderCols = ["key", "value"])
    (hres : q.responseHeaderCols = [] ∨ q.responseHeaderCols = ["key", "value"]) :
    ∃ logs2, queryHeaders st q logs = .ok logs2 ∧ logs2.length = logs.length ∧
      ∀ l ∈ logs2, l.header.isSome = true := by
  obtain ⟨logs1, h1, hlen1, hall1⟩ := attachReqHeaders_kv st logs
  rw [queryHeaders, hreq, if_pos (by decide), h1]
  dsimp only
  rcases hres with hres2 | hres2
  · rw [hres2]
    exact ⟨logs1, rfl, hlen1, hall1⟩
  · rw [hres2]
    obtain ⟨logs2, h3, hlen3, hmap3⟩ := attachResHeaders_kv st logs1
    rw [if_pos (by decide), h3]
    refine ⟨logs2, rfl, hlen3.trans hlen1, ?_⟩
    intro l hl
    have hmem : l.header ∈ logs2.map RequestLog.header := List.mem_map_of_mem _ hl
    rw [hmap3] at hmem
    obtain ⟨l1, hl1, hh⟩ := List.mem_map.1 hmem
    rw [← hh]
    exact hall1 l1 hl1

/-- Witness for C8 on a store with one request-owned header row. -/
theorem queryHeaders_both_cols_witness :
    (⟨[], ["key", "value"], [], true⟩ : HttpRequestLogsQuery).requestHeaderCols
        = ["key", "value"] ∧
    (⟨[], ["key", "value"], [], true⟩ : HttpRequestLogsQuery).responseHeaderCols
        = [] ∧
    ∃ logs2, queryHeaders
        (AddRequestLog emptyStore wReq [] 7 none).2
        ⟨[], ["key", "value"], [], true⟩
        [⟨1, "HTTP/1.1", "http://x.test/a", "GET", [], 7, none, none⟩] = .ok logs2 ∧
      logs2.length = 1 ∧ ∀ l ∈ logs2, l.header.isSome = true :=
  ⟨rfl, rfl,
    queryHeaders_both_cols (AddRequestLog emptyStore wReq [] 7 none).2
      ⟨[], ["key", "value"], [], true⟩
      [⟨1, "HTTP/1.1", "http://x.test/a", "GET", [], 7, none, none⟩]
      rfl (Or.inl rfl)⟩

/-- Under the full projection every request column is selected, so the DTO
mapping populates every request field of the row (and no response is attached
when the joined response is NULL). -/
theorem rowToRequestLog_full (row : HttpRequestRow) :
    rowToRequestLog (parseHTTPRequestLogsQuery fullProjection) (row, none) =
      ⟨row.id, row.proto, row.url, row.method, row.body, row.timestamp,
       none, none⟩ := rfl

/-- `FindRequestLogByID` under the full projection, on a store where the id
matches exactly one request row, no response references it, and its header
rows are exactly `rows`: returns the row's fields with the headers rebuilt by
`findHeaders` (i.e. folded through `http.Header.Add`). -/
theorem FindRequestLogByID_full (stX : Store) (N : Int) (row : HttpRequestRow)
    (rows : List HttpHeaderRow)
    (hfilter : stX.requests.filter (fun r => decide (r.id = N)) = [row])
    (hnores : ∀ s ∈ stX.responses, s.reqId ≠ row.id)
    (hhdrs : stX.headers.filter (fun hr => decide (hr.reqId = some row.id)) = rows) :
    FindRequestLogByID stX fullProjection N =
      .ok ⟨row.id, row.proto, row.url, row.method, row.body, row.timestamp,
        some ((rows.map (fun r => (r.key, r.value))).foldl
          (fun h p => headerAdd h p.1 p.2) []), none⟩ := by
  have hjoin : joinRows (parseHTTPRequestLogsQuery fullProjection) stX.responses [row]
      = [(row, none)] := by
    rw [joinRows, if_pos (by decide : (parseHTTPRequestLogsQuery fullProjection).joinResponse = true)]
    rw [List.flatMap_cons, List.flatMap_nil, leftJoinResponses_fresh _ _ hnores,
      List.append_nil]
  have hatt : attachReqHeaders stX ["key", "value"]
      [(⟨row.id, row.proto, row.url, row.method, row.body, row.timestamp,
        none, none⟩ : RequestLog)] =
      .ok [⟨row.id, row.proto, row.url, row.method, row.body, row.timestamp,
        some ((rows.map (fun r => (r.key, r.value))).foldl
          (fun h p => headerAdd h p.1 p.2) []), none⟩] := by
    rw [attachReqHeaders]
    dsimp only
    rw [hhdrs, findHeaders_kv]
    rfl
  have hq : queryHeaders stX (parseHTTPRequestLogsQuery fullProjection)
      [(⟨row.id, row.proto, row.url, row.method, row.body, row.timestamp,
        none, none⟩ : RequestLog)] =
      .ok [⟨row.id, row.proto, row.url, row.method, row.body, row.timestamp,
        some ((rows.map (fun r => (r.key, r.value))).foldl
          (fun h p => headerAdd h p.1 p.2) []), none⟩] := by
    rw [queryHeaders,
      show (parseHTTPRequestLogsQuery fullProjection).requestHeaderCols
        = ["key", "value"] from rfl,
      if_pos (by decide), hatt]
    rfl
  rw [FindRequestLogByID, if_neg (by decide), hfilter, hjoin]
  show (match queryHeaders stX (parseHTTPRequestLogsQuery fullProjection)
      [rowToRequestLog (parseHTTPRequestLogsQuery fullProjection) (row, none)] with
    | Except.error e =>
      Except.error (DbError.other ("sqlite: could not query headers: " ++ e))
    | Except.ok logs => Except.ok (logs.getD 0
        (rowToRequestLog (parseHTTPRequestLogsQuery fullProjection) (row, none)))) = _
  rw [rowToRequestLog_full, hq]
  rfl

/-- C1 counterexample.  Insert the request `GET http://x.test/a` with header
map `{"x-a" ↦ ["1"]}` and read it back by id under the full projection: the
returned header multi-map has nothing under the stored key `"x-a"` (the key
came back canonicalized to `"X-A"`), so the record is not equal to the one
added. -/
theorem roundtrip_full_projection_cex :
    (FindRequestLogByID
        (AddRequestLog emptyStore ⟨"GET", "http://x.test/a", "HTTP/1.1",
          [("x-a", ["1"])]⟩ [] 7 none).2
        fullProjection 1).map (fun o => o.header.map (fun h => hLookup h "x-a")) =
      .ok (some []) ∧
    hLookup [("x-a", ["1"])] "x-a" = ["1"] := ⟨rfl, rfl⟩

/-- C1 (amended).  For a well-formed store and a request whose header keys are
already in MIME-canonical form, a successful `AddRequestLog` followed by
`FindRequestLogByID` with the assigned id under the full projection returns an
equal record: same url, method, proto, byte-identical body, the same
timestamp, and a header multi-map that agrees with the request's at every key
(ordering of values within a key preserved).  Without the canonical-keys
proviso the keys come back canonicalized (see the counterexample). -/
theorem AddRequestLog_FindRequestLogByID_roundtrip (st : Store)
    (req : HttpRequestIn) (body : List Nat) (ts : Nat) (hwf : storeWF st)
    (hcanon : ∀ e ∈ req.header, canonicalMIMEHeaderKey e.1 = e.1) :
    ∃ r st2, AddRequestLog st req body ts none = (.ok r, st2) ∧
      ∃ h, FindRequestLogByID st2 fullProjection r.id =
          .ok ⟨r.id, req.proto, req.urlStr, req.method, body, ts, some h, none⟩ ∧
        ∀ k, hLookup h k = hLookup req.header k := by
  refine ⟨_, _, AddRequestLog_none st req body ts, ?_⟩
  have hfil := filter_requests_fresh st
    ⟨st.nextReqId, req.proto, req.urlStr, req.method, body, ts⟩ hwf rfl
  have hhdrs := filter_headers_fresh st st.nextReqId st.nextHeaderId
    (flattenHeaders req.header) hwf le_rfl
  have hfind := FindRequestLogByID_full
    { st with
        requests := st.requests ++
          [⟨st.nextReqId, req.proto, req.urlStr, req.method, body, ts⟩],
        headers := st.headers ++
          mkHeaderRows (reqHeaderRow st.nextReqId) st.nextHeaderId
            (flattenHeaders req.header),
        nextReqId := st.nextReqId + 1,
        nextHeaderId := st.nextHeaderId + (flattenHeaders req.header).length }
    st.nextReqId
    ⟨st.nextReqId, req.proto, req.urlStr, req.method, body, ts⟩
    (mkHeaderRows (reqHeaderRow st.nextReqId) st.nextHeaderId
      (flattenHeaders req.header))
    hfil
    (fun s hs => by
      have h2 := (hwf.2.1 s hs).1
      show s.reqId ≠ st.nextReqId
      omega)
    hhdrs
  refine ⟨_, hfind, ?_⟩
  intro k
  rw [mkHeaderRows_map_kv,
    hLookup_foldl_headerAdd (flattenHeaders req.header) [] k (by simp [nodupKeys]),
    flattenHeaders_filter_canon req.header k hcanon]
  rfl

/-- Witness for C1: a canonical-keyed request round-trips on the empty
store. -/
theorem AddRequestLog_FindRequestLogByID_roundtrip_witness :
    storeWF emptyStore ∧ (∀ e ∈ wReq.header, canonicalMIMEHeaderKey e.1 = e.1) ∧
    (∃ r st2, AddRequestLog emptyStore wReq [104, 105] 7 none = (.ok r, st2) ∧
      ∃ h, FindRequestLogByID st2 fullProjection r.id =
          .ok ⟨r.id, wReq.proto, wReq.urlStr, wReq.method, [104, 105], 7,
            some h, none⟩ ∧
        ∀ k, hLookup h k = hLookup wReq.header k) :=
  ⟨storeWF_empty, by decide,
   AddRequestLog_FindRequestLogByID_roundtrip emptyStore wReq [104, 105] 7
     storeWF_empty (by decide)⟩

/-! ## Supporting facts for the C3/C5 diagnoses: under a projection that
selects the response field (so the join is present and the base query is
well-formed), find-all does order by id descending and find-by-id does signal
NotFound exactly on absent ids. -/

theorem intRange_length (start : Int) (n : Nat) : (intRange start n).length = n := by
  induction n generalizing start with
  | zero => rfl
  | succ n ih => simp [intRange, ih]

theorem intRange_le_of_mem (start : Int) (n : Nat) (x : Int)
    (hx : x ∈ intRange start n) : start ≤ x := by
  induction n generalizing start with
  | zero => cases hx
  | succ n ih =>
    rcases List.mem_cons.1 hx with rfl | hx2
    · omega
    · have := ih (start + 1) hx2
      omega

theorem intRange_pairwise (start : Int) (n : Nat) :
    (intRange start n).Pairwise (fun a b => a < b) := by
  induction n generalizing start with
  | zero => exact List.Pairwise.nil
  | succ n ih =>
    refine List.pairwise_cons.2 ⟨?_, ih (start + 1)⟩
    intro x hx
    have := intRange_le_of_mem (start + 1) n x hx
    omega

theorem flatMap_leftJoin_nil (base : List HttpRequestRow) :
    base.flatMap (leftJoinResponses []) = base.map (fun r => (r, none)) := by
  induction base with
  | nil => rfl
  | cons a t ih =>
    rw [List.flatMap_cons, ih]
    rfl

/-- For any N requests inserted on one connection into a fresh store,
`FindRequestLogs` under the response-selecting projection returns exactly
those N records with ids strictly descending (most recently assigned
first). -/
theorem FindRequestLogs_responseProj_desc (cs : List InsertReq) :
    ∃ logs, FindRequestLogs (insertMany emptyStore cs) [⟨"response", []⟩] =
        .ok logs ∧
      logs.length = cs.length ∧
      logs.map RequestLog.id = (intRange 1 cs.length).reverse ∧
      (logs.map RequestLog.id).Pairwise (fun a b => b < a) := by
  obtain ⟨hids, hnext, hres⟩ := insertMany_requests_ids cs emptyStore
  have hpw := insertMany_pairwise cs emptyStore List.Pairwise.nil
    (fun r hr => absurd hr (List.not_mem_nil r))
  have h1 : sortByIdDesc (insertMany emptyStore cs).requests =
      (insertMany emptyStore cs).requests.reverse :=
    sortByIdDesc_of_ascending _ hpw
  have h2 : (insertMany emptyStore cs).responses = [] := hres
  have hmain : FindRequestLogs (insertMany emptyStore cs) [⟨"response", []⟩] =
      .ok ((joinRows (parseHTTPRequestLogsQuery [⟨"response", []⟩])
            (insertMany emptyStore cs).responses
            (sortByIdDesc (insertMany emptyStore cs).requests)).map
          (rowToRequestLog (parseHTTPRequestLogsQuery [⟨"response", []⟩]))) := rfl
  rw [h1, h2, joinRows,
    if_pos (by decide :
      (parseHTTPRequestLogsQuery [⟨"response", []⟩]).joinResponse = true),
    flatMap_leftJoin_nil] at hmain
  have hidseq : (((insertMany emptyStore cs).requests.reverse.map
        (fun r => (r, (none : Option HttpResponseRow)))).map
        (rowToRequestLog (parseHTTPRequestLogsQuery [⟨"response", []⟩]))).map
        RequestLog.id = (intRange 1 cs.length).reverse := by
    rw [List.map_map, List.map_map]
    rw [show ((RequestLog.id ∘ rowToRequestLog
          (parseHTTPRequestLogsQuery [⟨"response", []⟩])) ∘
        fun r => (r, (none : Option HttpResponseRow))) = HttpRequestRow.id
      from funext (fun r => rfl)]
    rw [List.map_reverse, hids]
    rfl
  refine ⟨_, hmain, ?_, hidseq, ?_⟩
  · have hl := congrArg List.length hidseq
    simpa [intRange_length] using hl
  · rw [hidseq, List.pairwise_reverse]
    exact intRange_pairwise 1 cs.length

theorem leftJoinResponses_ne_nil (responses : List HttpResponseRow)
    (r : HttpRequestRow) : ∃ p l2, leftJoinResponses responses r = p :: l2 := by
  unfold leftJoinResponses
  cases hl : responses.filter (fun res => decide (res.reqId = r.id)) with
  | nil => exact ⟨(r, none), [], rfl⟩
  | cons y ys => exact ⟨(r, some y), ys.map (fun res => (r, some res)), rfl⟩

/-- Under the response-selecting projection, `FindRequestLogByID` returns the
distinct NotFound error exactly when no request with the given id exists. -/
theorem FindRequestLogByID_responseProj_notFound_iff (st : Store) (id : Int) :
    FindRequestLogByID st [⟨"response", []⟩] id = .error .requestNotFound ↔
      ∀ r ∈ st.requests, r.id ≠ id := by
  constructor
  · intro h r hr hid
    have hmem : r ∈ st.requests.filter (fun x => decide (x.id = id)) :=
      List.mem_filter.2 ⟨hr, decide_eq_true hid⟩
    rcases hfil : st.requests.filter (fun x => decide (x.id = id)) with _ | ⟨x, xs⟩
    · rw [hfil] at hmem
      cases hmem
    · obtain ⟨p, l2, hp⟩ := leftJoinResponses_ne_nil st.responses x
      have hcalc : FindRequestLogByID st [⟨"response", []⟩] id =
          .ok (rowToRequestLog (parseHTTPRequestLogsQuery [⟨"response", []⟩]) p) := by
        show (match (joinRows (parseHTTPRequestLogsQuery [⟨"response", []⟩])
            st.responses (st.requests.filter (fun x => decide (x.id = id)))).head? with
          | none => (.error .requestNotFound : Except DbError RequestLog)
          | some row => .ok (rowToRequestLog
              (parseHTTPRequestLogsQuery [⟨"response", []⟩]) row)) = _
        rw [hfil, joinRows,
          if_pos (by decide :
            (parseHTTPRequestLogsQuery [⟨"response", []⟩]).joinResponse = true),
          List.flatMap_cons, hp, List.cons_append]
        rfl
      rw [hcalc] at h
      exact Except.noConfusion h
  · intro hall
    have hfil : st.requests.filter (fun x => decide (x.id = id)) = [] := by
      apply List.filter_eq_nil_iff.2
      intro x hx hd
      exact hall x hx (of_decide_eq_true hd)
    show (match (joinRows (parseHTTPRequestLogsQuery [⟨"response", []⟩])
        st.responses (st.requests.filter (fun x => decide (x.id = id)))).head? with
      | none => (.error .requestNotFound : Except DbError RequestLog)
      | some row => .ok (rowToRequestLog
          (parseHTTPRequestLogsQuery [⟨"response", []⟩]) row)) =
      .error .requestNotFound
    rw [hfil]
    rfl
